import Mathlib

/-!
Shallow embedding of the live-reload core of gosrv (a Go development
server with browser live reload).  The repository has two variants of the
same design: `main.go` (Server-Sent Events transport, polling change
detector) and a second source file (WebSocket transport, fsnotify
event-subscription detector).  Both keep a global client registry
`clients` (a Go map guarded by `clientsMu`), broadcast with
`notifyClients`, inject a script into served HTML with `injectLiveReload`
and resolve request paths with `filepath.Join(dir, filepath.Clean(path))`.

Conventions of the embedding:
* a Go `map[K]bool` whose values are always `true` is a finite set of
  keys, modelled as `Finset Nat` with client handles numbered;
* wall-clock instants are `Nat` (milliseconds); `time.After`
  on modification times is strict `<`; `time.Since last` is `t - last`;
* file paths are lists of path components (`List String`);
* per-client transport outcomes (a WebSocket write error, a ready
  receiver on an SSE channel) are data on the modelled client, since the
  Go code branches on exactly that outcome.
-/

/-- Registration of a client handle, as in `clients[messageChan] = true`
(SSE variant) and `clients[conn] = true` (WebSocket variant). -/
def register (clients : Finset Nat) (c : Nat) : Finset Nat :=
  insert c clients

/-- Deregistration of a client handle, as in `delete(clients, messageChan)`
and `delete(clients, conn)`: Go map `delete` removes the key when present
and is a no-op otherwise. -/
def deregister (clients : Finset Nat) (c : Nat) : Finset Nat :=
  clients.erase c

/-- One SSE client as `notifyClients` of `main.go` sees it: its channel
handle and whether a receiver is currently ready on the unbuffered
channel, which is exactly the condition under which the non-blocking
`select { case client <- true: ... default: }` send succeeds. -/
structure SseClient where
  id : Nat
  ready : Bool
deriving DecidableEq, Repr

/-- Result of one SSE broadcast pass: the registry after the pass, the
clients attempted (in iteration order) and the clients actually
delivered to. -/
structure SseBroadcast where
  registry : List SseClient
  attempted : List Nat
  delivered : List Nat
deriving DecidableEq, Repr

/-- Broadcast of `main.go`'s `notifyClients`: iterate over every
registered client; a non-blocking send succeeds when a receiver is
ready and otherwise hits the `default:` branch, which does nothing (the
code comments that the client "will be cleaned up on next cycle", but
the loop itself never mutates the registry). -/
def notifyClientsSSE : List SseClient → SseBroadcast
  | [] => ⟨[], [], []⟩
  | c :: rest =>
    let r := notifyClientsSSE rest
    { registry := c :: r.registry
      attempted := c.id :: r.attempted
      delivered := if c.ready then c.id :: r.delivered else r.delivered }

/-- One WebSocket client as the WebSocket variant's `notifyClients` sees
it: its handle and whether `conn.WriteMessage` returns an error for this
broadcast. -/
structure WsClient where
  id : Nat
  writeFails : Bool
deriving DecidableEq, Repr

/-- Result of one WebSocket broadcast pass. -/
structure WsBroadcast where
  registry : List WsClient
  attempted : List Nat
deriving DecidableEq, Repr

/-- Broadcast of the WebSocket variant's `notifyClients`: iterate over
every registered client, attempt `WriteMessage`; on error the client is
closed and deleted from the registry inside the same pass, and the loop
moves on to the next client. -/
def notifyClientsWS : List WsClient → WsBroadcast
  | [] => ⟨[], []⟩
  | c :: rest =>
    let r := notifyClientsWS rest
    if c.writeFails then ⟨r.registry, c.id :: r.attempted⟩
    else ⟨c :: r.registry, c.id :: r.attempted⟩

/-- Exit paths of the SSE session endpoint `handleEventSource` that are
reachable after the client is registered: the streaming-unsupported
early `return`, and the `<-notify` return from the relay loop (which
fires on peer close and on server shutdown).  The deregistration runs in
a `defer` installed before any of these returns. -/
inductive SseExit
  | streamingUnsupported
  | peerClosed
  | serverShutdown
deriving DecidableEq, Repr

/-- The registry mutation of `handleEventSource` over a full handler run:
register the fresh channel, run the body until the exit reason fires,
then run the deferred `delete(clients, messageChan)` on the way out of
every path. -/
def handleEventSource (reg : Finset Nat) (c : Nat) (exit : SseExit) : Finset Nat :=
  let reg1 := register reg c
  match exit with
  | SseExit.streamingUnsupported => deregister reg1 c
  | SseExit.peerClosed => deregister reg1 c
  | SseExit.serverShutdown => deregister reg1 c

/-- Exit paths of the WebSocket session endpoint `handleWebSocket`: a
failed upgrade returns before registration; after registration the read
loop breaks on `ReadMessage` error, which is how both a peer close and a
transport error surface. -/
inductive WsExit
  | upgradeFailed
  | peerClosed
  | transportError
deriving DecidableEq, Repr

/-- The registry mutation of `handleWebSocket` over a full handler run:
on upgrade failure the registry is untouched; otherwise the connection
is registered and the deferred `delete(clients, conn)` runs when the
read loop breaks. -/
def handleWebSocket (reg : Finset Nat) (c : Nat) (exit : WsExit) : Finset Nat :=
  match exit with
  | WsExit.upgradeFailed => reg
  | WsExit.peerClosed => deregister (register reg c) c
  | WsExit.transportError => deregister (register reg c) c

/-- State of the SSE registry and of the set of channels that have been
closed, as visible to code holding `clientsMu`.  All registry access in
`main.go` (register, the teardown `delete` + `close`, the broadcast
iteration with its sends) happens inside `clientsMu`-guarded critical
sections, so a concurrent execution is an interleaving of the atomic
actions below. -/
structure SseSys where
  registry : Finset Nat
  closed : Finset Nat
deriving DecidableEq

/-- Atomic mutex-guarded actions on the shared SSE state: registration
of a fresh channel (`clients[messageChan] = true`), endpoint teardown
(`delete(clients, messageChan)` and `close(messageChan)` in one critical
section), and one broadcast pass of `notifyClients`. -/
inductive SseAct
  | register (c : Nat)
  | teardown (c : Nat)
  | broadcast
deriving DecidableEq, Repr

/-- Effect of one atomic action on the shared state.  A broadcast only
sends (it never mutates the registry or closes channels, see
`notifyClientsSSE`); a teardown removes the channel from the registry
and closes it in the same critical section. -/
def sseStep (s : SseSys) : SseAct → SseSys
  | SseAct.register c => { s with registry := register s.registry c }
  | SseAct.teardown c =>
      { registry := deregister s.registry c, closed := insert c s.closed }
  | SseAct.broadcast => s

/-- Whether some prefix of the action sequence reaches a broadcast that
sends on a closed channel: the broadcast's non-blocking send targets
every channel in the registry, and sending on a channel that has been
closed is the Go runtime panic branch. -/
def ssePanics : SseSys → List SseAct → Bool
  | _, [] => false
  | s, a :: rest =>
    if a = SseAct.broadcast ∧ s.registry ∩ s.closed ≠ ∅ then true
    else ssePanics (sseStep s a) rest

/-- Whether every registration in the action sequence registers a fresh
channel: `make(chan bool)` in `handleEventSource` always yields a
channel that has never been closed. -/
def sseFresh : SseSys → List SseAct → Bool
  | _, [] => true
  | s, SseAct.register c :: rest =>
      decide (c ∉ s.closed) && sseFresh (sseStep s (SseAct.register c)) rest
  | s, SseAct.teardown c :: rest => sseFresh (sseStep s (SseAct.teardown c)) rest
  | s, SseAct.broadcast :: rest => sseFresh (sseStep s SseAct.broadcast) rest

/-- Drop test of the debouncer in the WebSocket variant's watch loop:
`time.Since(lastEvent) < 100*time.Millisecond` makes the loop `continue`
(drop the signal).  `lastEvent` starts as Go's zero `time.Time`, so the
first signal is never dropped; this is modelled with `Option Nat`
(timestamps in milliseconds, `none` before any forwarded signal). -/
def debounceDrop (last : Option Nat) (t : Nat) : Bool :=
  match last with
  | none => false
  | some l => decide (t - l < 100)

/-- One debouncer step: a dropped signal leaves the state unchanged and
is not forwarded; otherwise `lastEvent = time.Now()` records the
signal's time and the signal is forwarded. -/
def debounceStep (last : Option Nat) (t : Nat) : Option Nat × Bool :=
  if debounceDrop last t then (last, false) else (some t, true)

/-- Forwarding decisions of the debouncer over a stream of raw signal
timestamps, in order. -/
def debounceRun (ts : List Nat) : List Bool :=
  (ts.foldl
    (fun acc t =>
      let s := debounceStep acc.1 t
      (s.1, acc.2 ++ [s.2]))
    ((none : Option Nat), ([] : List Bool))).2

/-- Modelled from the spec: a leading-edge debouncer that forwards a
signal only when the elapsed time since the last forwarded one strictly
exceeds the window, per the claim's words "forwarded if and only if the
elapsed time since the most recently forwarded signal exceeds the 100 ms
window".  Stated for comparison with `debounceStep`, which is translated
from the code. -/
def specDebounceStep (last : Option Nat) (t : Nat) : Option Nat × Bool :=
  match last with
  | none => (some t, true)
  | some l => if t - l > 100 then (some t, true) else (some l, false)

/-- Forwarding decisions of the spec-worded debouncer over a stream. -/
def specDebounceRun (ts : List Nat) : List Bool :=
  (ts.foldl
    (fun acc t =>
      let s := specDebounceStep acc.1 t
      (s.1, acc.2 ++ [s.2]))
    ((none : Option Nat), ([] : List Bool))).2

/-- Exclusion test applied by both detectors' recursive walks:
`basename[0] == '.' || basename == "node_modules"` on the visited
entry's base name (`filepath.Base` never returns an empty string; the
empty case is mapped to not-excluded). -/
def excludedName (name : String) : Bool :=
  (match name.toList with
   | c :: _ => c = '.'
   | [] => false) || name == "node_modules"

/-- Directory tree under the watched root: every entry has a base name
and a modification time; directories have children. -/
inductive FsTree
  | file (name : String) (modTime : Nat)
  | dir (name : String) (modTime : Nat) (children : List FsTree)

/-- Snapshot taken by `scanDirectory`: the map from path (components
below and including the root entry) to modification time, modelled as an
association list with unique keys. -/
abbrev Snapshot := List (List String × Nat)

mutual

/-- Snapshot walk of `scanDirectory` in `main.go`: `filepath.Walk` visits
every entry (directories included); an excluded entry is skipped, and an
excluded directory prunes its whole subtree (`filepath.SkipDir`); every
other entry is stored with its modification time. -/
def scanTree : FsTree → Snapshot
  | FsTree.file n m => if excludedName n then [] else [([n], m)]
  | FsTree.dir n m children =>
      if excludedName n then []
      else ([n], m) :: (scanForest children).map (fun pm => (n :: pm.1, pm.2))

/-- Snapshot walk over a directory's children, in order. -/
def scanForest : List FsTree → Snapshot
  | [] => []
  | t :: ts => scanTree t ++ scanForest ts
end

mutual

/-- Initial registration walk of the WebSocket variant's
`watchForChanges`: every non-excluded directory is added to the fsnotify
watcher, and an excluded directory prunes its whole subtree
(`filepath.SkipDir`); files are not added. -/
def watchDirs : FsTree → List (List String)
  | FsTree.file _ _ => []
  | FsTree.dir n _ children =>
      if excludedName n then []
      else [n] :: (watchDirsForest children).map (fun p => n :: p)

/-- Registration walk over a directory's children, in order. -/
def watchDirsForest : List FsTree → List (List String)
  | [] => []
  | t :: ts => watchDirs t ++ watchDirsForest ts
end

/-- Map indexing `m[path]` with its `exists` flag, as the poll loop uses
it on the previous and current snapshots. -/
def lookupMod (p : List String) : Snapshot → Option Nat
  | [] => none
  | q :: rest => if q.1 = p then some q.2 else lookupMod p rest

/-- Condition of the poll loop's first pass on one current entry:
`!exists || modTime.After(prevModTime)` (`time.After` is strictly
later). -/
def modChanged (prevMod : Option Nat) (m : Nat) : Bool :=
  match prevMod with
  | none => true
  | some pm => decide (pm < m)

/-- Paths the poll cycle classifies as changed: present in the current
snapshot and absent from the previous one or strictly newer. -/
def changedPaths (prev cur : Snapshot) : List (List String) :=
  (cur.filter (fun pm => modChanged (lookupMod pm.1 prev) pm.2)).map Prod.fst

/-- Paths the poll cycle classifies as deleted: present in the previous
snapshot and absent from the current one. -/
def deletedPaths (prev cur : Snapshot) : List (List String) :=
  (prev.filter (fun pm => (lookupMod pm.1 cur).isNone)).map Prod.fst

/-- The poll cycle's `changes` flag: set when either pass found a
changed or a deleted path. -/
def pollChanges (prev cur : Snapshot) : Bool :=
  !(changedPaths prev cur).isEmpty || !(deletedPaths prev cur).isEmpty

/-- One poll cycle of `watchDirectoryForChanges`: compute the `changes`
flag and adopt the current snapshot as the next baseline
(`prevFiles = currentFiles` runs unconditionally). -/
def pollCycle (prev cur : Snapshot) : Bool × Snapshot :=
  (pollChanges prev cur, cur)

/-- Number of `notifyClients` calls one poll cycle makes: exactly one
when the `changes` flag is set, none otherwise. -/
def pollNotifyCount (prev cur : Snapshot) : Nat :=
  if pollChanges prev cur then 1 else 0

/-- One raw fsnotify event as the watch loop sees it: the path it names,
its arrival time, whether its op has the Create bit, and whether
`os.Stat` on the name succeeds and reports a directory. -/
structure FsEvent where
  name : List String
  time : Nat
  isCreate : Bool
  statIsDir : Bool
deriving DecidableEq, Repr

/-- State of the WebSocket variant's watch loop: the directories
registered with the fsnotify watcher, the debouncer's `lastEvent`
timestamp and the number of `notifyClients` calls made so far. -/
structure WatchState where
  watched : List (List String)
  lastEvent : Option Nat
  notifies : Nat
deriving DecidableEq, Repr

/-- Temp-file filter of the watch loop:
`strings.HasSuffix(event.Name, "~") || strings.HasSuffix(event.Name, ".tmp")`
(a suffix of the whole path string is a suffix of its last component,
since neither suffix contains a separator). -/
def hasTmpSuffix (name : List String) : Bool :=
  match name.getLast? with
  | none => false
  | some s =>
    "~".toList.isSuffixOf s.toList || ".tmp".toList.isSuffixOf s.toList

/-- One iteration of the watch loop of `watchForChanges` on a raw event,
in source order: skip temp-suffixed names; `continue` when the debouncer
drops the event (before anything else happens); otherwise record
`lastEvent`, register the named directory with the watcher when the
event is a Create of a directory (no exclusion check here), and call
`notifyClients`. -/
def stepWatch (st : WatchState) (e : FsEvent) : WatchState :=
  if hasTmpSuffix e.name then st
  else if debounceDrop st.lastEvent e.time then st
  else
    let st1 : WatchState := { st with lastEvent := some e.time }
    let st2 : WatchState :=
      if e.isCreate && e.statIsDir then
        { st1 with watched := st1.watched ++ [e.name] }
      else st1
    { st2 with notifies := st2.notifies + 1 }

/-- Watch loop over a finite stream of raw events. -/
def runWatch (st : WatchState) (es : List FsEvent) : WatchState :=
  es.foldl stepWatch st

/-- Watched tree with a hidden directory and a `node_modules` directory,
both empty of interesting content. -/
def hiddenTreeA : FsTree :=
  FsTree.dir "site" 0
    [FsTree.dir ".hidden" 0 [], FsTree.dir "node_modules" 0 [FsTree.file "x.js" 1]]

/-- The same tree after creating a file inside the hidden directory and
modifying a file inside `node_modules`. -/
def hiddenTreeB : FsTree :=
  FsTree.dir "site" 0
    [FsTree.dir ".hidden" 0 [FsTree.file "secret.txt" 5],
     FsTree.dir "node_modules" 0 [FsTree.file "x.js" 9]]

/-- Previous snapshot of the C4 witness run. -/
def prevSnap : Snapshot := [(["site", "a"], 1), (["site", "b"], 2)]

/-- Current snapshot of the C4 witness run: `a` modified, `b` deleted,
`c` created. -/
def curSnap : Snapshot := [(["site", "a"], 3), (["site", "c"], 1)]

/-- Substring test `strings.Contains(s, pat)`, over the characters of the
document: true when `pat` occurs starting at some position of `s`. -/
def containsSub : List Char → List Char → Bool
  | [], pat => pat.isPrefixOf []
  | c :: rest, pat => pat.isPrefixOf (c :: rest) || containsSub rest pat

/-- Replacement of the first occurrence, as
`strings.Replace(s, pat, rep, 1)` behaves for a non-empty pattern: scan
left to right; at the first position where `pat` is a prefix, emit `rep`
and the remainder after the pattern; otherwise keep the character and
continue. -/
def replaceFirst : List Char → List Char → List Char → List Char
  | [], _, _ => []
  | c :: rest, pat, rep =>
    if pat.isPrefixOf (c :: rest) then rep ++ (c :: rest).drop pat.length
    else c :: replaceFirst rest pat rep

/-- Closing body tag searched for by `injectLiveReload`. -/
def bodyTag : List Char := "</body>".toList

/-- Closing html tag searched for by `injectLiveReload`. -/
def htmlTag : List Char := "</html>".toList

/-- Injection of `injectLiveReload` (identical in both variants): if the
document contains a closing body tag, insert the script before its first
occurrence; otherwise, if it contains a closing html tag, insert before
its first occurrence; otherwise append the script at the end.  The
script text itself is a parameter: the insertion logic is independent of
its content. -/
def injectLiveReload (script doc : List Char) : List Char :=
  if containsSub doc bodyTag then replaceFirst doc bodyTag (script ++ bodyTag)
  else if containsSub doc htmlTag then
    replaceFirst doc htmlTag (script ++ htmlTag)
  else doc ++ script

/-- Component of a path that survives lexical cleaning: not empty, not
the current-directory dot, not the parent-directory dot-dot. -/
def GoodComp (c : String) : Prop :=
  c ≠ "" ∧ c ≠ "." ∧ c ≠ ".."

instance : DecidablePred GoodComp := fun c =>
  inferInstanceAs (Decidable (c ≠ "" ∧ c ≠ "." ∧ c ≠ ".."))

/-- Lexical cleaning of a rooted path over its separator-split
components, as Go's `filepath.Clean` behaves on a path that begins with
the separator: empty and dot components are dropped, a dot-dot pops the
last kept component and at the root is discarded (`Clean` never ascends
above the root of a rooted path), and other components are kept in
order. -/
def cleanRootedAux : List String → List String → List String
  | acc, [] => acc
  | acc, c :: rest =>
    if c = "" ∨ c = "." then cleanRootedAux acc rest
    else if c = ".." then cleanRootedAux acc.dropLast rest
    else cleanRootedAux (acc ++ [c]) rest

/-- Lexical cleaning of a rooted path, starting from the root. -/
def cleanRooted (cs : List String) : List String :=
  cleanRootedAux [] cs

/-- Path resolution of `FileServerWithLiveReload`:
`filepath.Join(dir, filepath.Clean(r.URL.Path))` with `dir` the absolute
served root (already clean, since `filepath.Abs` cleans).  The request
URL path begins with a slash, so the inner `Clean` is rooted cleaning of
the URL's components; `Join` concatenates the two paths and cleans the
combined rooted path. -/
def resolvePath (dirC urlC : List String) : List String :=
  cleanRooted (dirC ++ cleanRooted urlC)

theorem erase_insert_self (s : Finset Nat) (c : Nat) :
    (insert c s).erase c = s.erase c := by
  ext x
  simp only [Finset.mem_erase, Finset.mem_insert]
  constructor
  · rintro ⟨hx, hx2 | hx2⟩
    · exact absurd hx2 hx
    · exact ⟨hx, hx2⟩
  · rintro ⟨hx, hx2⟩
    exact ⟨hx, Or.inr hx2⟩

/-- C1 (counterexample): the claim says any handle whose delivery attempt
reveals it dead (write error or closed/full channel observed) is absent
from the registry by the end of at most one broadcast cycle.  In the SSE
variant a client whose non-blocking send hits the `default:` branch (no
ready receiver, i.e. a full channel was observed) is still in the
registry after that broadcast cycle, and still after a second one: the
SSE broadcast never removes clients. -/
theorem C1_sse_retains_unready_client :
    (notifyClientsSSE [⟨0, false⟩]).delivered = [] ∧
    (notifyClientsSSE [⟨0, false⟩]).registry = [⟨0, false⟩] ∧
    (notifyClientsSSE (notifyClientsSSE [⟨0, false⟩]).registry).registry
      = [⟨0, false⟩] := by
  exact ⟨rfl, rfl, rfl⟩

/-- C1 (amended): in both variants every registered client's delivery is
attempted in the same broadcast pass regardless of the outcomes for the
other clients, and no failure is propagated to the caller (both
broadcasts are total functions returning no error).  In the WebSocket
variant a client whose write errors is removed from the registry within
the same pass and every other client is retained; in the SSE variant
the broadcast never mutates the registry (a client whose non-blocking
send fails is skipped silently and its cleanup is left to its own
session endpoint). -/
theorem C1_broadcast_isolation :
    (∀ cs : List SseClient,
      (notifyClientsSSE cs).attempted = cs.map SseClient.id ∧
      (notifyClientsSSE cs).registry = cs) ∧
    (∀ cs : List WsClient,
      (notifyClientsWS cs).attempted = cs.map WsClient.id ∧
      (notifyClientsWS cs).registry = cs.filter (fun c => !c.writeFails)) := by
  constructor
  · intro cs
    induction cs with
    | nil => exact ⟨rfl, rfl⟩
    | cons c rest ih =>
      refine ⟨?_, ?_⟩
      · simp only [notifyClientsSSE, List.map_cons, ih.1]
      · simp only [notifyClientsSSE, ih.2]
  · intro cs
    induction cs with
    | nil => exact ⟨rfl, rfl⟩
    | cons c rest ih =>
      by_cases h : c.writeFails
      · refine ⟨?_, ?_⟩
        · simp only [notifyClientsWS, h, if_true, List.map_cons, ih.1]
        · simp only [notifyClientsWS, h, if_true, List.filter_cons, ih.2,
            Bool.not_true]
          simp
      · refine ⟨?_, ?_⟩
        · simp only [notifyClientsWS, h, if_false, List.map_cons, ih.1,
            Bool.not_false]
          simp [h]
        · simp only [notifyClientsWS, List.filter_cons]
          simp [h, ih.2]

/-- C7: deregistration is idempotent.  For every registry state and every
session handle, deregistering twice equals deregistering once, and
deregistering a handle that is not present leaves the registry exactly
unchanged (Go map `delete` of an absent key is a no-op and raises no
error). -/
theorem C7_deregister_idempotent :
    ∀ (r : Finset Nat) (c : Nat),
      deregister (deregister r c) c = deregister r c ∧
      (c ∉ r → deregister r c = r) := by
  intro r c
  exact ⟨Finset.erase_idem, fun h => Finset.erase_eq_of_not_mem h⟩

/-- C8: on every exit path of either session endpoint that follows a
successful registration, the endpoint's deferred cleanup removes its
session from the registry before returning: the final registry is
exactly the original with the session deregistered, and the session's
handle is never left registered. -/
theorem C8_endpoint_deregisters_on_exit :
    ∀ (reg : Finset Nat) (c : Nat),
      (∀ e : SseExit,
        handleEventSource reg c e = deregister reg c ∧
        c ∉ handleEventSource reg c e) ∧
      (∀ e : WsExit, e ≠ WsExit.upgradeFailed →
        handleWebSocket reg c e = deregister reg c ∧
        c ∉ handleWebSocket reg c e) := by
  intro reg c
  constructor
  · intro e
    have key : deregister (register reg c) c = deregister reg c :=
      erase_insert_self reg c
    cases e with
    | streamingUnsupported =>
      exact ⟨key, by rw [handleEventSource, key]; exact Finset.not_mem_erase c reg⟩
    | peerClosed =>
      exact ⟨key, by rw [handleEventSource, key]; exact Finset.not_mem_erase c reg⟩
    | serverShutdown =>
      exact ⟨key, by rw [handleEventSource, key]; exact Finset.not_mem_erase c reg⟩
  · intro e he
    have key : deregister (register reg c) c = deregister reg c :=
      erase_insert_self reg c
    cases e with
    | upgradeFailed => exact absurd rfl he
    | peerClosed =>
      exact ⟨key, by rw [handleWebSocket, key]; exact Finset.not_mem_erase c reg⟩
    | transportError =>
      exact ⟨key, by rw [handleWebSocket, key]; exact Finset.not_mem_erase c reg⟩

theorem sse_inv_register (s : SseSys) (c : Nat)
    (hinv : s.registry ∩ s.closed = ∅) (hc : c ∉ s.closed) :
    (sseStep s (SseAct.register c)).registry ∩
      (sseStep s (SseAct.register c)).closed = ∅ := by
  simp only [sseStep, register]
  rw [Finset.insert_inter_of_not_mem hc]
  exact hinv

theorem sse_inv_teardown (s : SseSys) (c : Nat)
    (hinv : s.registry ∩ s.closed = ∅) :
    (sseStep s (SseAct.teardown c)).registry ∩
      (sseStep s (SseAct.teardown c)).closed = ∅ := by
  simp only [sseStep, deregister]
  ext x
  simp only [Finset.mem_inter, Finset.mem_erase, Finset.mem_insert,
    Finset.not_mem_empty, iff_false, not_and]
  rintro ⟨hxc, hxreg⟩ (hx | hx)
  · exact hxc hx
  · have hmem : x ∈ s.registry ∩ s.closed := Finset.mem_inter.mpr ⟨hxreg, hx⟩
    rw [hinv] at hmem
    exact absurd hmem (Finset.not_mem_empty x)

/-- C9: in the SSE variant a broadcast never sends on a closed channel.
Teardown removes a channel from the registry and closes it in the same
mutex-guarded critical section, broadcast sends only to channels in the
registry under the same mutex, and registered channels are fresh; then
from any state where no registered channel is closed, no interleaving of
the atomic actions (any number of registrations, teardowns and
broadcasts, hence in particular one endpoint teardown and one broadcast)
reaches the send-on-closed-channel panic branch. -/
theorem C9_no_send_on_closed :
    ∀ (acts : List SseAct) (s : SseSys),
      s.registry ∩ s.closed = ∅ →
      sseFresh s acts = true →
      ssePanics s acts = false := by
  intro acts
  induction acts with
  | nil => intro s _ _; rfl
  | cons a rest ih =>
    intro s hinv hfresh
    cases a with
    | register c =>
      rw [sseFresh, Bool.and_eq_true] at hfresh
      have hc : c ∉ s.closed := of_decide_eq_true hfresh.1
      rw [ssePanics, if_neg (by rintro ⟨h, _⟩; exact SseAct.noConfusion h)]
      exact ih _ (sse_inv_register s c hinv hc) hfresh.2
    | teardown c =>
      rw [sseFresh] at hfresh
      rw [ssePanics, if_neg (by rintro ⟨h, _⟩; exact SseAct.noConfusion h)]
      exact ih _ (sse_inv_teardown s c hinv) hfresh
    | broadcast =>
      rw [sseFresh] at hfresh
      rw [ssePanics, if_neg (by rintro ⟨_, hne⟩; exact hne hinv)]
      exact ih _ hinv hfresh

/-- C9 (witness): a concrete run from the empty state registering one
client, broadcasting, tearing the client down and broadcasting again
never reaches the panic branch. -/
theorem C9_no_send_on_closed_witness :
    ssePanics ⟨∅, ∅⟩
      [SseAct.register 0, SseAct.broadcast, SseAct.teardown 0,
       SseAct.broadcast] = false :=
  C9_no_send_on_closed _ ⟨∅, ∅⟩ (by decide) (by decide)

/-- C3 (counterexample): on two signals exactly 100 ms apart the code's
debouncer forwards both (its drop condition is elapsed < 100 ms, so a
signal with elapsed time exactly 100 ms is forwarded), while the claim's
"forwarded iff elapsed exceeds the 100 ms window" would drop the second;
the claimed iff is therefore false at the stream with signals at 0 ms
and 100 ms. -/
theorem C3_boundary_counterexample :
    debounceRun [0, 100] = [true, true] ∧
    specDebounceRun [0, 100] = [true, false] :=
  ⟨rfl, rfl⟩

/-- C3 (amended): the debouncer is leading-edge with a non-strict
boundary: a signal is forwarded if and only if no signal has been
forwarded yet or at least 100 ms have elapsed since the most recently
forwarded signal; a dropped signal updates no state; of two raw signals
40 ms apart only the first is forwarded, and a third signal 150 ms
after the first is forwarded. -/
theorem C3_leading_edge_debounce :
    (∀ (last : Option Nat) (t : Nat),
      ((debounceStep last t).2 = true ↔
        (last = none ∨ ∃ l, last = some l ∧ 100 ≤ t - l)) ∧
      ((debounceStep last t).2 = false → (debounceStep last t).1 = last)) ∧
    debounceRun [0, 40, 150] = [true, false, true] := by
  refine ⟨?_, rfl⟩
  intro last t
  cases last with
  | none =>
    refine ⟨⟨fun _ => Or.inl rfl, fun _ => rfl⟩, fun h => Bool.noConfusion h⟩
  | some l =>
    by_cases h : t - l < 100
    · have hstep : debounceStep (some l) t = (some l, false) := by
        simp [debounceStep, debounceDrop, h]
      rw [hstep]
      refine ⟨⟨fun hf => Bool.noConfusion hf, ?_⟩, fun _ => rfl⟩
      rintro (hnone | ⟨l2, hl2, hle⟩)
      · exact Option.noConfusion hnone
      · injection hl2 with hl2
        subst hl2
        exact absurd h (not_lt.mpr hle)
    · have hstep : debounceStep (some l) t = (some t, true) := by
        simp [debounceStep, debounceDrop, h]
      rw [hstep]
      exact ⟨⟨fun _ => Or.inr ⟨l, rfl, not_lt.mp h⟩, fun _ => rfl⟩,
        fun hf => Bool.noConfusion hf⟩

/-- C2 (failing input): the polling detector honours the exclusion rule
(both trees snapshot identically, so the poll cycle emits nothing), but
the event-subscription detector does not: its loop filters only names
ending in a tilde or ".tmp", so the raw event for creating the hidden
directory `site/.cache` is forwarded, `notifyClients` fires, and the
hidden directory is even added to the watcher.  The claim that a path
with a dot component never causes a ChangeEvent under both strategies is
violated by the code. -/
theorem C2_event_strategy_notifies_on_hidden_path :
    scanTree hiddenTreeA = scanTree hiddenTreeB ∧
    pollChanges (scanTree hiddenTreeA) (scanTree hiddenTreeB) = false ∧
    (runWatch ⟨watchDirs hiddenTreeA, none, 0⟩
        [⟨["site", ".cache"], 0, true, true⟩]).notifies = 1 ∧
    (runWatch ⟨watchDirs hiddenTreeA, none, 0⟩
        [⟨["site", ".cache"], 0, true, true⟩]).watched
      = [["site"], ["site", ".cache"]] := by
  refine ⟨?_, ?_, ?_, ?_⟩ <;> rfl

/-- C5 (failing input): a directory-creation event arriving 50 ms after
the previous forwarded notification is dropped by the debounce
`continue` before the `watcher.Add` for newly created directories runs,
so the new directory is never registered with the watcher; the claim
says registration happens for every directory-creation event regardless
of how recently a notification was forwarded. -/
theorem C5_debounce_skips_directory_registration :
    (runWatch ⟨[["site"]], none, 0⟩
        [⟨["site", "a.txt"], 1000, false, false⟩,
         ⟨["site", "newdir"], 1050, true, true⟩]).watched = [["site"]] ∧
    (runWatch ⟨[["site"]], none, 0⟩
        [⟨["site", "a.txt"], 1000, false, false⟩,
         ⟨["site", "newdir"], 1050, true, true⟩]).notifies = 1 := by
  refine ⟨?_, ?_⟩ <;> rfl

theorem lookupMod_mem {p : List String} {m : Nat} :
    ∀ {l : Snapshot}, lookupMod p l = some m → (p, m) ∈ l := by
  intro l
  induction l with
  | nil => intro h; exact Option.noConfusion h
  | cons q rest ih =>
    intro h
    rw [lookupMod] at h
    by_cases hq : q.1 = p
    · rw [if_pos hq] at h
      injection h with h
      have hqe : q = (p, m) := by rw [← hq, ← h]
      rw [← hqe]
      exact List.mem_cons_self q rest
    · rw [if_neg hq] at h
      exact List.mem_cons_of_mem q (ih h)

theorem mem_lookupMod :
    ∀ {l : Snapshot}, (l.map Prod.fst).Nodup →
      ∀ {p : List String} {m : Nat}, (p, m) ∈ l → lookupMod p l = some m := by
  intro l
  induction l with
  | nil => intro _ p m h; exact absurd h (List.not_mem_nil (p, m))
  | cons q rest ih =>
    intro hnd p m h
    rw [List.map_cons, List.nodup_cons] at hnd
    rw [lookupMod]
    rcases List.mem_cons.mp h with heq | htail
    · have h1 : q.1 = p := by rw [← heq]
      have h2 : q.2 = m := by rw [← heq]
      rw [if_pos h1, h2]
    · have hne : q.1 ≠ p := by
        intro hcontra
        exact hnd.1 (hcontra ▸ List.mem_map_of_mem Prod.fst htail)
      rw [if_neg hne]
      exact ih hnd.2 htail

/-- C4: poll-cycle classification.  For snapshots with unique keys (as
Go maps are), a path is classified changed exactly when present in the
current snapshot and absent from the previous one or strictly newer; a
path is classified deleted exactly when present in the previous snapshot
and absent from the current one; the cycle calls `notifyClients` exactly
once when the changed-or-deleted set is non-empty and never otherwise;
and the new snapshot becomes the next baseline in either case. -/
theorem C4_poll_cycle_classification :
    ∀ (prev cur : Snapshot),
      (prev.map Prod.fst).Nodup → (cur.map Prod.fst).Nodup →
      (∀ p : List String,
        p ∈ changedPaths prev cur ↔
          ∃ m, lookupMod p cur = some m ∧
            (lookupMod p prev = none ∨
             ∃ pm, lookupMod p prev = some pm ∧ pm < m)) ∧
      (∀ p : List String,
        p ∈ deletedPaths prev cur ↔
          (∃ pm, lookupMod p prev = some pm) ∧ lookupMod p cur = none) ∧
      pollNotifyCount prev cur
        = (if changedPaths prev cur = [] ∧ deletedPaths prev cur = []
           then 0 else 1) ∧
      (pollCycle prev cur).2 = cur := by
  intro prev cur hprev hcur
  refine ⟨?_, ?_, ?_, rfl⟩
  · intro p
    rw [changedPaths, List.mem_map]
    constructor
    · rintro ⟨pm, hpm, hfst⟩
      rcases List.mem_filter.mp hpm with ⟨hmem, hcond⟩
      have hcond2 : modChanged (lookupMod pm.1 prev) pm.2 = true := hcond
      rw [hfst] at hcond2
      have hmem2 : (p, pm.2) ∈ cur := by
        have hqe : pm = (p, pm.2) := by rw [← hfst]
        rw [← hqe]
        exact hmem
      refine ⟨pm.2, mem_lookupMod hcur hmem2, ?_⟩
      rcases hlp : lookupMod p prev with _ | pmv
      · exact Or.inl rfl
      · rw [hlp] at hcond2
        exact Or.inr ⟨pmv, rfl, of_decide_eq_true hcond2⟩
    · rintro ⟨m, hsome, hcond⟩
      refine ⟨(p, m), List.mem_filter.mpr ⟨lookupMod_mem hsome, ?_⟩, rfl⟩
      show modChanged (lookupMod p prev) m = true
      rcases hcond with hnone | ⟨pm, hpm, hlt⟩
      · rw [hnone]
        rfl
      · rw [hpm]
        exact decide_eq_true hlt
  · intro p
    rw [deletedPaths, List.mem_map]
    constructor
    · rintro ⟨pm, hpm, hfst⟩
      rcases List.mem_filter.mp hpm with ⟨hmem, hcond⟩
      have hcond2 : (lookupMod pm.1 cur).isNone = true := hcond
      rw [hfst] at hcond2
      have hmem2 : (p, pm.2) ∈ prev := by
        have hqe : pm = (p, pm.2) := by rw [← hfst]
        rw [← hqe]
        exact hmem
      exact ⟨⟨pm.2, mem_lookupMod hprev hmem2⟩,
        Option.isNone_iff_eq_none.mp hcond2⟩
    · rintro ⟨⟨pm, hpm⟩, hnone⟩
      refine ⟨(p, pm), List.mem_filter.mpr ⟨lookupMod_mem hpm, ?_⟩, rfl⟩
      show (lookupMod p cur).isNone = true
      rw [hnone]
      rfl
  · rw [pollNotifyCount]
    by_cases hboth : changedPaths prev cur = [] ∧ deletedPaths prev cur = []
    · have hfalse : pollChanges prev cur = false := by
        rw [pollChanges, hboth.1, hboth.2]
        rfl
      rw [hfalse, if_pos hboth]
      decide
    · have htrue : pollChanges prev cur = true := by
        rw [pollChanges]
        rcases not_and_or.mp hboth with h | h
        · rcases hl : changedPaths prev cur with _ | ⟨x, xs⟩
          · exact absurd hl h
          · rfl
        · rcases hl : deletedPaths prev cur with _ | ⟨x, xs⟩
          · exact absurd hl h
          · simp
      rw [htrue, if_neg hboth]
      decide

/-- C4 (witness): the classification theorem applied to a concrete pair
of snapshots with a modified, a deleted and a created path. -/
theorem C4_poll_cycle_classification_witness :
    (∀ p : List String,
      p ∈ changedPaths prevSnap curSnap ↔
        ∃ m, lookupMod p curSnap = some m ∧
          (lookupMod p prevSnap = none ∨
           ∃ pm, lookupMod p prevSnap = some pm ∧ pm < m)) ∧
    (∀ p : List String,
      p ∈ deletedPaths prevSnap curSnap ↔
        (∃ pm, lookupMod p prevSnap = some pm) ∧ lookupMod p curSnap = none) ∧
    pollNotifyCount prevSnap curSnap
      = (if changedPaths prevSnap curSnap = [] ∧ deletedPaths prevSnap curSnap = []
         then 0 else 1) ∧
    (pollCycle prevSnap curSnap).2 = curSnap :=
  C4_poll_cycle_classification prevSnap curSnap (by decide) (by decide)

theorem replaceFirst_spec (pat rep : List Char) (hpat : pat ≠ []) :
    ∀ s : List Char, containsSub s pat = true →
      ∃ pre suf, s = pre ++ pat ++ suf ∧
        replaceFirst s pat rep = pre ++ rep ++ suf ∧
        ∀ i, i < pre.length → pat.isPrefixOf (s.drop i) = false := by
  intro s
  induction s with
  | nil =>
    intro h
    rw [containsSub] at h
    exact absurd (List.prefix_nil.mp (List.isPrefixOf_iff_prefix.mp h)) hpat
  | cons c rest ih =>
    intro h
    by_cases hp : pat.isPrefixOf (c :: rest) = true
    · obtain ⟨t, ht⟩ := List.isPrefixOf_iff_prefix.mp hp
      refine ⟨[], t, ?_, ?_, ?_⟩
      · rw [List.nil_append, ht]
      · rw [replaceFirst, if_pos hp, ← ht, List.drop_left, List.nil_append]
      · intro i hi
        exact absurd hi (Nat.not_lt_zero i)
    · rw [containsSub, Bool.or_eq_true] at h
      rcases h with h | h
      · exact absurd h hp
      · obtain ⟨pre, suf, h1, h2, h3⟩ := ih h
        refine ⟨c :: pre, suf, ?_, ?_, ?_⟩
        · rw [h1]
          simp only [List.cons_append, List.append_assoc]
        · rw [replaceFirst, if_neg hp, h2]
          rw [List.cons_append, List.cons_append]
        · intro i hi
          cases i with
          | zero =>
            rw [List.drop_zero]
            exact Bool.not_eq_true _ ▸ hp
          | succ j =>
            rw [List.drop_succ_cons]
            exact h3 j (Nat.lt_of_succ_lt_succ hi)

/-- C6: the live-reload script block is inserted exactly once, as a
single contiguous block splitting the original document into a prefix
and a suffix whose concatenation is exactly the original content:
immediately before the first occurrence of the closing body tag when one
exists (the suffix starts with the tag and the tag occurs nowhere
earlier), otherwise immediately before the first occurrence of the
closing html tag, otherwise appended at the very end of the document. -/
theorem C6_inject_once_before_first_tag (script doc : List Char) :
    ∃ pre suf, injectLiveReload script doc = pre ++ script ++ suf ∧
      pre ++ suf = doc ∧
      ((containsSub doc bodyTag = true →
          bodyTag.isPrefixOf suf = true ∧
          ∀ i, i < pre.length → bodyTag.isPrefixOf (doc.drop i) = false) ∧
       (containsSub doc bodyTag = false → containsSub doc htmlTag = true →
          htmlTag.isPrefixOf suf = true ∧
          ∀ i, i < pre.length → htmlTag.isPrefixOf (doc.drop i) = false) ∧
       (containsSub doc bodyTag = false → containsSub doc htmlTag = false →
          pre = doc ∧ suf = [])) := by
  cases hb : containsSub doc bodyTag with
  | true =>
    obtain ⟨pre, suf0, h1, h2, h3⟩ :=
      replaceFirst_spec bodyTag (script ++ bodyTag) (by decide) doc hb
    refine ⟨pre, bodyTag ++ suf0, ?_, ?_, ?_, ?_, ?_⟩
    · rw [injectLiveReload, if_pos hb, h2]
      simp only [List.append_assoc]
    · rw [h1, List.append_assoc]
    · intro _
      exact ⟨List.isPrefixOf_iff_prefix.mpr ⟨suf0, rfl⟩, h3⟩
    · intro habs _
      exact Bool.noConfusion habs
    · intro habs _
      exact Bool.noConfusion habs
  | false =>
    cases hh : containsSub doc htmlTag with
    | true =>
      obtain ⟨pre, suf0, h1, h2, h3⟩ :=
        replaceFirst_spec htmlTag (script ++ htmlTag) (by decide) doc hh
      refine ⟨pre, htmlTag ++ suf0, ?_, ?_, ?_, ?_, ?_⟩
      · rw [injectLiveReload, if_neg (by rw [hb]; exact Bool.false_ne_true),
          if_pos hh, h2]
        simp only [List.append_assoc]
      · rw [h1, List.append_assoc]
      · intro habs
        exact Bool.noConfusion habs
      · intro _ _
        exact ⟨List.isPrefixOf_iff_prefix.mpr ⟨suf0, rfl⟩, h3⟩
      · intro _ habs
        exact Bool.noConfusion habs
    | false =>
      refine ⟨doc, [], ?_, List.append_nil doc, ?_, ?_, fun _ _ => ⟨rfl, rfl⟩⟩
      · rw [injectLiveReload, if_neg (by rw [hb]; exact Bool.false_ne_true),
          if_neg (by rw [hh]; exact Bool.false_ne_true), List.append_nil]
      · intro habs
        exact Bool.noConfusion habs
      · intro _ habs
        exact Bool.noConfusion habs

theorem cleanRootedAux_good (cs : List String) :
    ∀ acc : List String, (∀ x ∈ acc, GoodComp x) →
      ∀ x ∈ cleanRootedAux acc cs, GoodComp x := by
  induction cs with
  | nil => intro acc hacc; exact hacc
  | cons c rest ih =>
    intro acc hacc
    rw [cleanRootedAux]
    by_cases h1 : c = "" ∨ c = "."
    · rw [if_pos h1]
      exact ih acc hacc
    · rw [if_neg h1]
      by_cases h2 : c = ".."
      · rw [if_pos h2]
        exact ih acc.dropLast
          (fun x hx => hacc x ((List.dropLast_sublist acc).subset hx))
      · rw [if_neg h2]
        refine ih (acc ++ [c]) ?_
        intro x hx
        rcases List.mem_append.mp hx with hx | hx
        · exact hacc x hx
        · have hxc : x = c := List.mem_singleton.mp hx
          subst hxc
          exact ⟨fun h => h1 (Or.inl h), fun h => h1 (Or.inr h), h2⟩

theorem cleanRootedAux_of_good (cs : List String)
    (hcs : ∀ x ∈ cs, GoodComp x) :
    ∀ acc : List String, cleanRootedAux acc cs = acc ++ cs := by
  induction cs with
  | nil => intro acc; rw [cleanRootedAux, List.append_nil]
  | cons c rest ih =>
    intro acc
    have hc : GoodComp c := hcs c (List.mem_cons_self c rest)
    rw [cleanRootedAux,
      if_neg (by rintro (h | h); exacts [hc.1 h, hc.2.1 h]),
      if_neg hc.2.2,
      ih (fun x hx => hcs x (List.mem_cons_of_mem c hx)) (acc ++ [c]),
      List.append_assoc]
    rfl

/-- C10: no directory traversal.  For every request URL path (rooted,
so its components undergo rooted cleaning that discards every leading
dot-dot) and every clean absolute served root, the filesystem path the
file server resolves is the served root followed by some clean relative
remainder: it always lies within the served root directory. -/
theorem C10_no_directory_traversal :
    ∀ (dirC urlC : List String),
      (∀ x ∈ dirC, GoodComp x) →
      ∃ rest, resolvePath dirC urlC = dirC ++ rest ∧ ∀ x ∈ rest, GoodComp x := by
  intro dirC urlC hdir
  have hurl : ∀ x ∈ cleanRooted urlC, GoodComp x :=
    cleanRootedAux_good urlC [] (fun x hx => absurd hx (List.not_mem_nil x))
  have hall : ∀ x ∈ dirC ++ cleanRooted urlC, GoodComp x := by
    intro x hx
    rcases List.mem_append.mp hx with hx | hx
    · exact hdir x hx
    · exact hurl x hx
  refine ⟨cleanRooted urlC, ?_, hurl⟩
  rw [resolvePath, cleanRooted, cleanRootedAux_of_good _ hall, List.nil_append]

/-- C10 (witness): the classic traversal request `/../../../etc/passwd`
against the served root `/home/user/site` resolves inside the root. -/
theorem C10_no_directory_traversal_witness :
    ∃ rest,
      resolvePath ["home", "user", "site"] ["..", "..", "..", "etc", "passwd"]
        = ["home", "user", "site"] ++ rest ∧ ∀ x ∈ rest, GoodComp x :=
  C10_no_directory_traversal ["home", "user", "site"]
    ["..", "..", "..", "etc", "passwd"] (by decide)
